import Mathlib

/-!
Verification model of `fixmszip` (src/fixmszip.c).

The program patches the "total number of disks" field of the Zip64
End-Of-Central-Directory Locator (EOCDL) from 0 to 1 inside an existing
zip archive.  A file is modelled as `List Nat` (its byte values, each
`< 256` in any real file); pointer arithmetic over the mmapped window is
translated into file-absolute offsets:

  * `fptr` maps file offset `offsize` (the page-aligned window start), so
    a C pointer `ptr` corresponds to the file offset `offsize + (ptr - fptr)`.
  * the scan start `fptr + fsize + pageoff - EOCDR_BASE_SIZE + 3` is file
    offset `file_size - 19` in both the large-file and the small-file case;
  * `minptr = fptr + pageoff + Z64_EOCDL_SIZE` is file offset
    `(file_size - 65577) + 20` (truncated subtraction), in both cases;
  * the comment-length cross check `(ptr - fptr) - pageoff + 22 + comment_len
    != fsize` keeps its C shape: with `lo20 = offsize + pageoff
    = file_size - 65577` (truncated) and `fsizeC = min file_size 65577`
    (the clamped `fsize` variable) it reads `p - lo20 + 22 + comment_len ≠ fsizeC`.

The OS-level failure paths (lstat / open / mmap failing) are not part of the
model; the model describes the executions in which the window is mapped
successfully, which is what the claims quantify over.  The `little_endian`
flag is resolved once at process start; `fixup` is modelled with the flag
set to `true` (the little-endian host case); the flag-parametric byte
readers `get2bytes` / `get4bytes` model both branches.
-/

/-- `get2bytes` of src/fixmszip.c: given the endianness flag and the two
bytes at the buffer position, the value of the C expression
(`(ptr[1] << 8) + ptr[0]` on the little-endian branch,
`(ptr[0] << 8) + ptr[1]` on the other), truncated to `unsigned short`. -/
def get2bytes (le : Bool) (b0 b1 : Nat) : Nat :=
  (if le then b1 * 256 + b0 else b0 * 256 + b1) % 65536

/-- `get4bytes` of src/fixmszip.c: the accumulated value
`val += ptr[i] << (8*i)` (little-endian branch) resp.
`val += ptr[i] << (8*(3-i))`, truncated to `unsigned int`. -/
def get4bytes (le : Bool) (b0 b1 b2 b3 : Nat) : Nat :=
  (if le then b0 + b1 * 256 + b2 * 65536 + b3 * 16777216
   else b0 * 16777216 + b1 * 65536 + b2 * 256 + b3) % 4294967296

/-- A 2-byte read from the file at offset `p`, as `fixup` performs it
(through `get2bytes` with the process flag `little_endian = 1`). -/
def read2 (f : List Nat) (p : Nat) : Nat :=
  get2bytes true (f.getD p 0) (f.getD (p + 1) 0)

/-- A 4-byte read from the file at offset `p`, as `fixup` performs it
(through `get4bytes` with the process flag `little_endian = 1`). -/
def read4 (f : List Nat) (p : Nat) : Nat :=
  get4bytes true (f.getD p 0) (f.getD (p + 1) 0) (f.getD (p + 2) 0) (f.getD (p + 3) 0)

/-- The signature array `sig[] = {0x50,0x4b,0x05,0x06}` of `fixup`.
The C code indexes it with `i = SIG_LEN = 4` after a candidate rejection,
reading one byte past the array; `junk` stands for that adjacent byte
(the read is out of bounds, and `scan_junk_irrelevant` below shows the
scan result does not depend on it). -/
def sigByte (junk i : Nat) : Nat :=
  [0x50, 0x4b, 0x05, 0x06].getD i junk

/-- Outcome of the scan loop of `fixup` (lines 138-196 of src/fixmszip.c):
either the loop exhausts its range (`ptr < minptr`, leaving `res = 0`),
or it breaks at a cross-checked candidate offset `c`:
`notStartDisk` (`res = -1`), `notZip64` (`cd_offset != 0xffffffff`,
`res = 0`), `alreadyOk` (`numdisks != 0`, `res = 0`), or `patchable`
(`numdisks == 0`: the patch step is reached, `res = 1`). -/
inductive ScanResult where
  | exhausted : ScanResult
  | notStartDisk : Nat → ScanResult
  | notZip64 : Nat → ScanResult
  | alreadyOk : Nat → ScanResult
  | patchable : Nat → ScanResult
deriving DecidableEq

/-- The backward scan loop of `fixup`, in file-absolute offsets.
`lo20 + 20` is the file offset of `minptr`; `fsizeC` is the (clamped)
`fsize` variable; `i` is the partial-match index, `p` the file offset of
`ptr`.  Each loop iteration: if `ptr < minptr` stop; else compare
`*ptr` with `sig[i]`; on a full match (`i == 0`) run the candidate
checks of lines 147-187, where a failed cross check or a failed Zip64
EOCDL signature check sets `i = SIG_LEN` (= 4) and continues; on a
partial match decrement `i`; on a mismatch reset `i` to 3.  `--ptr`
becomes the recursive call at `q = p - 1`. -/
def scan (junk : Nat) (f : List Nat) (lo20 fsizeC : Nat) : Nat → Nat → ScanResult
  | _, 0 => .exhausted
  | i, q + 1 =>
    if q + 1 < lo20 + 20 then .exhausted
    else if f.getD (q + 1) 0 = sigByte junk i then
      if i = 0 then
        if (q + 1) - lo20 + 22 + read2 f ((q + 1) + 20) ≠ fsizeC then
          scan junk f lo20 fsizeC 4 q
        else if read2 f ((q + 1) + 4) ≠ read2 f ((q + 1) + 6) then
          .notStartDisk (q + 1)
        else if read4 f ((q + 1) + 16) ≠ 0xffffffff then
          .notZip64 (q + 1)
        else if read4 f ((q + 1) - 20) ≠ 0x07064b50 then
          scan junk f lo20 fsizeC 4 q
        else if read4 f ((q + 1) - 4) = 0 then
          .patchable (q + 1)
        else
          .alreadyOk (q + 1)
      else
        scan junk f lo20 fsizeC (i - 1) q
    else
      scan junk f lo20 fsizeC 3 q

/-- File offset of the first byte the scan examines:
`fptr + fsize + pageoff - EOCDR_BASE_SIZE + 3`, i.e. `file_size - 19`
(where the last byte of the EOCDR signature would sit were the comment
empty). -/
def scanStart (flen : Nat) : Nat := flen - 19

/-- Result of one `fixup` call: the C return value (-1 / 0 / 1) paired
with the file contents after the call. -/
inductive FixupRes where
  | err : FixupRes
  | noaction : FixupRes
  | updated : FixupRes
deriving DecidableEq

/-- `fixup` of src/fixmszip.c on a successfully mapped file: reject files
shorter than `EOCDR_BASE_SIZE` (22) with -1; otherwise run the backward
scan from `file_size - 19` down to `minptr`; on reaching the patch step
write the single byte `*(ptr-4) = 1` unless `dryrun` is set.  The pair
returned is (return value, file bytes after the call). -/
def fixup (file : List Nat) (dryrun : Bool) : FixupRes × List Nat :=
  if file.length < 22 then (.err, file)
  else
    match scan 0 file (file.length - 65577) (min file.length 65577) 3
        (scanStart file.length) with
    | .exhausted => (.noaction, file)
    | .notStartDisk _ => (.err, file)
    | .notZip64 _ => (.noaction, file)
    | .alreadyOk _ => (.noaction, file)
    | .patchable c =>
        if dryrun then (.updated, file) else (.updated, file.set (c - 4) 1)

/-- `offsize` after the page rounding of lines 113-121: for a file larger
than 65577 bytes, `file_size - 65577` rounded down to a page boundary;
otherwise 0. -/
def winStart (flen pagesize : Nat) : Nat :=
  if 65577 < flen then (flen - 65577) - (flen - 65577) % pagesize else 0

/-- `pageoff`, the leading pad introduced by the page rounding. -/
def winPageoff (flen pagesize : Nat) : Nat :=
  if 65577 < flen then (flen - 65577) % pagesize else 0

/-- The length passed to `mmap`: the clamped `fsize`, `min file_size 65577`. -/
def winSize (flen : Nat) : Nat := min flen 65577

/-- The four EOCDR signature bytes `0x50 0x4b 0x05 0x06` sit at file
offsets `c .. c+3`. -/
def sigAt (f : List Nat) (c : Nat) : Prop :=
  f.getD c 0 = 0x50 ∧ f.getD (c + 1) 0 = 0x4b ∧
    f.getD (c + 2) 0 = 0x05 ∧ f.getD (c + 3) 0 = 0x06

instance (f : List Nat) (c : Nat) : Decidable (sigAt f c) := by
  unfold sigAt; infer_instance

/-- The scan started in state `(i, p)` (with `fixup`'s window parameters)
accepts the candidate at offset `c` as the EOCDR: it stops there with one
of the four post-cross-check outcomes. -/
def acceptedAt (f : List Nat) (i p c : Nat) : Prop :=
  scan 0 f (f.length - 65577) (min f.length 65577) i p = .notStartDisk c ∨
  scan 0 f (f.length - 65577) (min f.length 65577) i p = .notZip64 c ∨
  scan 0 f (f.length - 65577) (min f.length 65577) i p = .alreadyOk c ∨
  scan 0 f (f.length - 65577) (min f.length 65577) i p = .patchable c

instance (f : List Nat) (i p c : Nat) : Decidable (acceptedAt f i p c) := by
  unfold acceptedAt; infer_instance

/-- Mirror of `scan` that reports whether every executed loop iteration
subscripts the 4-element array `sig` with an index in {0,1,2,3}: it
returns `false` as soon as an iteration starts (past the `ptr >= minptr`
guard) with `4 ≤ i`, which is exactly when line 140 evaluates `sig[i]`
out of bounds. -/
def scanSigIdxOk (f : List Nat) (lo20 fsizeC : Nat) : Nat → Nat → Bool
  | _, 0 => true
  | i, q + 1 =>
    if q + 1 < lo20 + 20 then true
    else if 4 ≤ i then false
    else if f.getD (q + 1) 0 = sigByte 0 i then
      if i = 0 then
        if (q + 1) - lo20 + 22 + read2 f ((q + 1) + 20) ≠ fsizeC then
          scanSigIdxOk f lo20 fsizeC 4 q
        else if read2 f ((q + 1) + 4) ≠ read2 f ((q + 1) + 6) then true
        else if read4 f ((q + 1) + 16) ≠ 0xffffffff then true
        else if read4 f ((q + 1) - 20) ≠ 0x07064b50 then
          scanSigIdxOk f lo20 fsizeC 4 q
        else true
      else
        scanSigIdxOk f lo20 fsizeC (i - 1) q
    else
      scanSigIdxOk f lo20 fsizeC 3 q

/-! ### Byte-level helper lemmas -/

lemma getD_set_ne (l : List Nat) {i j : Nat} (h : i ≠ j) (a : Nat) :
    (l.set i a).getD j 0 = l.getD j 0 := by
  simp [List.getD_eq_getElem?_getD, List.getElem?_set_ne h]

lemma getD_set_self (l : List Nat) {i : Nat} (h : i < l.length) (a : Nat) :
    (l.set i a).getD i 0 = a := by
  simp [List.getD_eq_getElem?_getD, List.getElem?_set_self', h]

lemma getD_lt (l : List Nat) (hb : ∀ b ∈ l, b < 256) (p : Nat) : l.getD p 0 < 256 := by
  rcases h : l[p]? with _ | a
  · simp [List.getD_eq_getElem?_getD, h]
  · have hm := List.getElem?_mem h
    simp [List.getD_eq_getElem?_getD, h]
    exact hb _ hm

lemma read2_set_ne (f : List Nat) {w p : Nat} (h0 : w ≠ p) (h1 : w ≠ p + 1) (v : Nat) :
    read2 (f.set w v) p = read2 f p := by
  unfold read2
  rw [getD_set_ne f h0, getD_set_ne f h1]

lemma read4_set_ne (f : List Nat) {w p : Nat} (h0 : w ≠ p) (h1 : w ≠ p + 1)
    (h2 : w ≠ p + 2) (h3 : w ≠ p + 3) (v : Nat) :
    read4 (f.set w v) p = read4 f p := by
  unfold read4
  rw [getD_set_ne f h0, getD_set_ne f h1, getD_set_ne f h2, getD_set_ne f h3]

/-- If a 4-byte little-endian read yields 0 then (for byte values < 256)
all four bytes are 0. -/
lemma read4_zero_bytes (f : List Nat) (hb : ∀ b ∈ f, b < 256) {p : Nat}
    (h : read4 f p = 0) :
    f.getD p 0 = 0 ∧ f.getD (p + 1) 0 = 0 ∧ f.getD (p + 2) 0 = 0 ∧
      f.getD (p + 3) 0 = 0 := by
  have h0 := getD_lt f hb p
  have h1 := getD_lt f hb (p + 1)
  have h2 := getD_lt f hb (p + 2)
  have h3 := getD_lt f hb (p + 3)
  simp only [read4, get4bytes, if_true] at h
  omega

/-- If a 4-byte little-endian read yields 0xffffffff then (for byte
values < 256) all four bytes are 0xff. -/
lemma read4_ff_bytes (f : List Nat) (hb : ∀ b ∈ f, b < 256) {p : Nat}
    (h : read4 f p = 0xffffffff) :
    f.getD p 0 = 0xff ∧ f.getD (p + 1) 0 = 0xff ∧ f.getD (p + 2) 0 = 0xff ∧
      f.getD (p + 3) 0 = 0xff := by
  have h0 := getD_lt f hb p
  have h1 := getD_lt f hb (p + 1)
  have h2 := getD_lt f hb (p + 2)
  have h3 := getD_lt f hb (p + 3)
  simp only [read4, get4bytes, if_true] at h
  omega

/-! ### Concrete files used as witnesses / counterexamples -/

/-- A minimal well-formed Zip64 archive tail (42 bytes): the 20-byte
Zip64 EOCDL at offsets 0-19 (signature `50 4b 06 07`, total-disks field
at 16-19 reading 0), followed by the EOCDR at offset 20 (signature,
this_disk = start_disk = 0, cd offset `ff ff ff ff`, comment length 0). -/
def wfile : List Nat :=
  [0x50, 0x4b, 0x06, 0x07,  0, 0, 0, 0,  0, 0, 0, 0, 0, 0, 0, 0,
   0, 0, 0, 0,
   0x50, 0x4b, 0x05, 0x06,  0, 0,  0, 0,  0, 0,  0, 0,  0, 0, 0, 0,
   0xff, 0xff, 0xff, 0xff,  0, 0]

/-- A 46-byte file whose only signature occurrence (at offset 24) fails
the comment-length cross check (comment length reads 1 but
24 + 22 + 1 ≠ 46), so the scan rejects it and continues with `i = SIG_LEN`. -/
def file46 : List Nat :=
  [0, 0, 0, 0, 0, 0, 0, 0, 0, 0, 0, 0, 0, 0, 0, 0, 0, 0, 0, 0, 0, 0, 0, 0,
   0x50, 0x4b, 0x05, 0x06, 0, 0, 0, 0, 0, 0, 0, 0, 0, 0, 0, 0, 0, 0, 0, 0,
   1, 0]

/-- A 63-byte file holding a fully validated, patchable EOCDR at offset
40 (comment length 1, 40 + 22 + 1 = 63; this_disk = start_disk = 6;
cd offset `ff ff ff ff`; Zip64 EOCDL with total-disks 0 at 20-39) whose
this_disk low byte 0x06 sits directly after the signature: the backward
scan consumes that byte as a candidate final signature byte, mismatches
one position further down, and skips the real signature. -/
def cfile : List Nat :=
  [0, 0, 0, 0, 0, 0, 0, 0, 0, 0, 0, 0, 0, 0, 0, 0, 0, 0, 0, 0,
   0x50, 0x4b, 0x06, 0x07,  0, 0, 0, 0,  0, 0, 0, 0, 0, 0, 0, 0,
   0, 0, 0, 0,
   0x50, 0x4b, 0x05, 0x06,  6, 0,  6, 0,  0, 0,  0, 0,  0, 0, 0, 0,
   0xff, 0xff, 0xff, 0xff,  1, 0,  0]

/-! ### Properties of the scan loop -/

/-- The candidate offset a scan outcome stopped at, if any. -/
def ScanResult.cand : ScanResult → Option Nat
  | .exhausted => none
  | .notStartDisk c => some c
  | .notZip64 c => some c
  | .alreadyOk c => some c
  | .patchable c => some c

/-- Whenever the scan stops at a candidate offset `c` (any of the four
post-cross-check outcomes), `c` is within the scanned range and the
comment-length cross check of lines 147-152 holds at `c`. -/
lemma scan_cand_base (junk : Nat) (f : List Nat) (lo fsC : Nat) :
    ∀ p i c, (scan junk f lo fsC i p).cand = some c →
      lo + 20 ≤ c ∧ c ≤ p ∧ (c - lo) + 22 + read2 f (c + 20) = fsC := by
  intro p
  induction p with
  | zero => intro i c h; simp [scan, ScanResult.cand] at h
  | succ q ih =>
    intro i c h
    rw [scan] at h
    by_cases hg : q + 1 < lo + 20
    · rw [if_pos hg] at h; simp [ScanResult.cand] at h
    · rw [if_neg hg] at h
      by_cases hs : f.getD (q + 1) 0 = sigByte junk i
      · rw [if_pos hs] at h
        by_cases hi : i = 0
        · rw [if_pos hi] at h
          by_cases hcc : (q + 1) - lo + 22 + read2 f ((q + 1) + 20) ≠ fsC
          · rw [if_pos hcc] at h
            obtain ⟨a1, a2, a3⟩ := ih 4 c h
            exact ⟨a1, by omega, a3⟩
          · rw [if_neg hcc] at h
            by_cases hd : read2 f ((q + 1) + 4) ≠ read2 f ((q + 1) + 6)
            · rw [if_pos hd] at h
              simp only [ScanResult.cand, Option.some.injEq] at h
              subst h
              exact ⟨by omega, le_refl _, not_not.mp hcc⟩
            · rw [if_neg hd] at h
              by_cases hcd : read4 f ((q + 1) + 16) ≠ 0xffffffff
              · rw [if_pos hcd] at h
                simp only [ScanResult.cand, Option.some.injEq] at h
                subst h
                exact ⟨by omega, le_refl _, not_not.mp hcc⟩
              · rw [if_neg hcd] at h
                by_cases hz : read4 f ((q + 1) - 20) ≠ 0x07064b50
                · rw [if_pos hz] at h
                  obtain ⟨a1, a2, a3⟩ := ih 4 c h
                  exact ⟨a1, by omega, a3⟩
                · rw [if_neg hz] at h
                  by_cases hn : read4 f ((q + 1) - 4) = 0
                  · rw [if_pos hn] at h
                    simp only [ScanResult.cand, Option.some.injEq] at h
                    subst h
                    exact ⟨by omega, le_refl _, not_not.mp hcc⟩
                  · rw [if_neg hn] at h
                    simp only [ScanResult.cand, Option.some.injEq] at h
                    subst h
                    exact ⟨by omega, le_refl _, not_not.mp hcc⟩
        · rw [if_neg hi] at h
          obtain ⟨a1, a2, a3⟩ := ih (i - 1) c h
          exact ⟨a1, by omega, a3⟩
      · rw [if_neg hs] at h
        obtain ⟨a1, a2, a3⟩ := ih 3 c h
        exact ⟨a1, by omega, a3⟩

/-- When the scan reaches the patch step at candidate `c`, every check of
lines 147-181 held there: `c` is within range, the comment-length cross
check holds, this_disk equals start_disk, the central-directory offset is
0xffffffff, the Zip64 EOCDL signature is 20 bytes before `c`, and the
total-disks field at `c-4` reads 0. -/
lemma scan_patch_facts (junk : Nat) (f : List Nat) (lo fsC : Nat) :
    ∀ p i c, scan junk f lo fsC i p = .patchable c →
      lo + 20 ≤ c ∧ c ≤ p ∧ (c - lo) + 22 + read2 f (c + 20) = fsC ∧
      read2 f (c + 4) = read2 f (c + 6) ∧
      read4 f (c + 16) = 0xffffffff ∧
      read4 f (c - 20) = 0x07064b50 ∧
      read4 f (c - 4) = 0 := by
  intro p
  induction p with
  | zero => intro i c h; simp [scan] at h
  | succ q ih =>
    intro i c h
    rw [scan] at h
    by_cases hg : q + 1 < lo + 20
    · rw [if_pos hg] at h; exact ScanResult.noConfusion h
    · rw [if_neg hg] at h
      by_cases hs : f.getD (q + 1) 0 = sigByte junk i
      · rw [if_pos hs] at h
        by_cases hi : i = 0
        · rw [if_pos hi] at h
          by_cases hcc : (q + 1) - lo + 22 + read2 f ((q + 1) + 20) ≠ fsC
          · rw [if_pos hcc] at h
            obtain ⟨a1, a2, rest⟩ := ih 4 c h
            exact ⟨a1, by omega, rest⟩
          · rw [if_neg hcc] at h
            by_cases hd : read2 f ((q + 1) + 4) ≠ read2 f ((q + 1) + 6)
            · rw [if_pos hd] at h; exact ScanResult.noConfusion h
            · rw [if_neg hd] at h
              by_cases hcd : read4 f ((q + 1) + 16) ≠ 0xffffffff
              · rw [if_pos hcd] at h; exact ScanResult.noConfusion h
              · rw [if_neg hcd] at h
                by_cases hz : read4 f ((q + 1) - 20) ≠ 0x07064b50
                · rw [if_pos hz] at h
                  obtain ⟨a1, a2, rest⟩ := ih 4 c h
                  exact ⟨a1, by omega, rest⟩
                · rw [if_neg hz] at h
                  by_cases hn : read4 f ((q + 1) - 4) = 0
                  · rw [if_pos hn] at h
                    injection h with hc
                    subst hc
                    exact ⟨by omega, le_refl _, not_not.mp hcc, not_not.mp hd,
                      not_not.mp hcd, not_not.mp hz, hn⟩
                  · rw [if_neg hn] at h; exact ScanResult.noConfusion h
        · rw [if_neg hi] at h
          obtain ⟨a1, a2, rest⟩ := ih (i - 1) c h
          exact ⟨a1, by omega, rest⟩
      · rw [if_neg hs] at h
        obtain ⟨a1, a2, rest⟩ := ih 3 c h
        exact ⟨a1, by omega, rest⟩

/-- Invariant of the backward matcher: in state `(i, p)` the bytes above
`p` that have already been matched hold the corresponding signature
bytes: `f[p + (k - i)] = sig[k]` for `i < k ≤ 3`. -/
def matchInv (f : List Nat) (i p : Nat) : Prop :=
  ∀ k, i < k → k ≤ 3 → f.getD (p + (k - i)) 0 = sigByte 0 k

lemma matchInv_triv (f : List Nat) (i p : Nat) (h : 3 ≤ i) : matchInv f i p := by
  intro k hk1 hk2
  exfalso
  omega

lemma matchInv_step (f : List Nat) (i q : Nat) (h1 : 1 ≤ i) (hi : i ≤ 3)
    (hInv : matchInv f i (q + 1)) (hs : f.getD (q + 1) 0 = sigByte 0 i) :
    matchInv f (i - 1) q := by
  intro k hk1 hk2
  rcases eq_or_lt_of_le (show i ≤ k by omega) with he | hlt
  · have hidx : q + (k - (i - 1)) = q + 1 := by omega
    rw [hidx, hs, he]
  · have hidx : q + (k - (i - 1)) = (q + 1) + (k - i) := by omega
    rw [hidx]
    exact hInv k (by omega) hk2

/-- Writing the byte 1 into the total-disks field located by a run that
reaches the patch step turns that run's outcome into `alreadyOk` at the
same candidate, leaving the scan path otherwise unchanged: the patched
byte at `c - 4` is below every byte the scan examines before it stops at
`c`, and a later candidate whose Zip64-EOCDL-signature read could touch
`c - 4` would need a signature byte where the located EOCDR carries
0xff bytes of its central-directory offset. -/
lemma scan_after_patch (f : List Nat) (hb : ∀ b ∈ f, b < 256) (lo fsC : Nat) :
    ∀ p i c, p < f.length → matchInv f i p → scan 0 f lo fsC i p = .patchable c →
      scan 0 (f.set (c - 4) 1) lo fsC i p = .alreadyOk c := by
  intro p
  induction p with
  | zero => intro i c _ _ h; simp [scan] at h
  | succ q ih =>
    intro i c hplen hInv h
    obtain ⟨hc20, hcq1, hcrossc, hdisksc, hcdc, hzc, hnc⟩ :=
      scan_patch_facts 0 f lo fsC (q + 1) i c h
    have hw : c - 4 < f.length := by omega
    rw [scan] at h
    rw [scan]
    by_cases hg : q + 1 < lo + 20
    · rw [if_pos hg] at h; exact ScanResult.noConfusion h
    · rw [if_neg hg] at h
      rw [if_neg hg]
      have hbyteq : (f.set (c - 4) 1).getD (q + 1) 0 = f.getD (q + 1) 0 :=
        getD_set_ne f (by omega) 1
      rw [hbyteq]
      by_cases hs : f.getD (q + 1) 0 = sigByte 0 i
      · rw [if_pos hs] at h
        rw [if_pos hs]
        by_cases hi : i = 0
        · subst hi
          rw [if_pos rfl] at h
          rw [if_pos rfl]
          have hr20 : read2 (f.set (c - 4) 1) ((q + 1) + 20) = read2 f ((q + 1) + 20) :=
            read2_set_ne f (by omega) (by omega) 1
          rw [hr20]
          by_cases hcc : (q + 1) - lo + 22 + read2 f ((q + 1) + 20) ≠ fsC
          · rw [if_pos hcc] at h
            rw [if_pos hcc]
            exact ih 4 c (by omega) (matchInv_triv f 4 q (by omega)) h
          · rw [if_neg hcc] at h
            rw [if_neg hcc]
            have hr4 : read2 (f.set (c - 4) 1) ((q + 1) + 4) = read2 f ((q + 1) + 4) :=
              read2_set_ne f (by omega) (by omega) 1
            have hr6 : read2 (f.set (c - 4) 1) ((q + 1) + 6) = read2 f ((q + 1) + 6) :=
              read2_set_ne f (by omega) (by omega) 1
            rw [hr4, hr6]
            by_cases hd : read2 f ((q + 1) + 4) ≠ read2 f ((q + 1) + 6)
            · rw [if_pos hd] at h; exact ScanResult.noConfusion h
            · rw [if_neg hd] at h
              rw [if_neg hd]
              have hr16 : read4 (f.set (c - 4) 1) ((q + 1) + 16) = read4 f ((q + 1) + 16) :=
                read4_set_ne f (by omega) (by omega) (by omega) (by omega) 1
              rw [hr16]
              by_cases hcd : read4 f ((q + 1) + 16) ≠ 0xffffffff
              · rw [if_pos hcd] at h; exact ScanResult.noConfusion h
              · rw [if_neg hcd] at h
                rw [if_neg hcd]
                by_cases hz : read4 f ((q + 1) - 20) ≠ 0x07064b50
                · -- rejected candidate: the original run continues below, so c ≤ q
                  rw [if_pos hz] at h
                  have hcq : c ≤ q := (scan_patch_facts 0 f lo fsC q 4 c h).2.1
                  have hb0 : f.getD (q + 1) 0 = 0x50 := by
                    rw [hs]; rfl
                  have hb1 : f.getD ((q + 1) + 1) 0 = 0x4b := by
                    have h' := hInv 1 (by omega) (by omega)
                    simpa using h'
                  have hb2 : f.getD ((q + 1) + 2) 0 = 0x05 := by
                    have h' := hInv 2 (by omega) (by omega)
                    simpa using h'
                  have hb3 : f.getD ((q + 1) + 3) 0 = 0x06 := by
                    have h' := hInv 3 (by omega) (by omega)
                    simpa using h'
                  have hffc := read4_ff_bytes f hb hcdc
                  have hA : q + 1 ≠ c + 13 := by
                    intro he
                    have h16 := hffc.1
                    rw [show c + 16 = (q + 1) + 3 by omega] at h16
                    omega
                  have hB : q + 1 ≠ c + 14 := by
                    intro he
                    have h16 := hffc.1
                    rw [show c + 16 = (q + 1) + 2 by omega] at h16
                    omega
                  have hC : q + 1 ≠ c + 15 := by
                    intro he
                    have h16 := hffc.1
                    rw [show c + 16 = (q + 1) + 1 by omega] at h16
                    omega
                  have hD : q + 1 ≠ c + 16 := by
                    intro he
                    have h16 := hffc.1
                    rw [show c + 16 = q + 1 by omega] at h16
                    omega
                  have hrz : read4 (f.set (c - 4) 1) ((q + 1) - 20) = read4 f ((q + 1) - 20) :=
                    read4_set_ne f (by omega) (by omega) (by omega) (by omega) 1
                  rw [hrz]
                  rw [if_pos hz]
                  exact ih 4 c (by omega) (matchInv_triv f 4 q (by omega)) h
                · rw [if_neg hz] at h
                  by_cases hn : read4 f ((q + 1) - 4) = 0
                  · rw [if_pos hn] at h
                    injection h with hc
                    subst hc
                    have hrz : read4 (f.set ((q + 1) - 4) 1) ((q + 1) - 20) =
                        read4 f ((q + 1) - 20) :=
                      read4_set_ne f (by omega) (by omega) (by omega) (by omega) 1
                    rw [hrz]
                    rw [if_neg hz]
                    have hz0 := read4_zero_bytes f hb hn
                    have hone : read4 (f.set ((q + 1) - 4) 1) ((q + 1) - 4) = 1 := by
                      unfold read4
                      rw [getD_set_self f hw, getD_set_ne f (by omega) 1,
                        getD_set_ne f (by omega) 1, getD_set_ne f (by omega) 1,
                        hz0.2.1, hz0.2.2.1, hz0.2.2.2]
                      rfl
                    rw [hone]
                    rw [if_neg (by omega : ¬ (1 : Nat) = 0)]
                  · rw [if_neg hn] at h; exact ScanResult.noConfusion h
        · rw [if_neg hi] at h
          rw [if_neg hi]
          have hInv' : matchInv f (i - 1) q := by
            rcases le_or_lt i 3 with hle | hgt
            · exact matchInv_step f i q (by omega) hle hInv hs
            · exact matchInv_triv f (i - 1) q (by omega)
          exact ih (i - 1) c (by omega) hInv' h
      · rw [if_neg hs] at h
        rw [if_neg hs]
        exact ih 3 c (by omega) (matchInv_triv f 3 q (by omega)) h

/-! ### fixup-level helper lemmas -/

lemma fixup_of_patchable (f : List Nat) (d : Bool) (c : Nat)
    (hlen : ¬ f.length < 22)
    (hscan : scan 0 f (f.length - 65577) (min f.length 65577) 3
      (scanStart f.length) = .patchable c) :
    fixup f d = (.updated, if d then f else f.set (c - 4) 1) := by
  unfold fixup
  rw [if_neg hlen, hscan]
  cases d <;> rfl

lemma fixup_of_exhausted (f : List Nat) (d : Bool)
    (hlen : ¬ f.length < 22)
    (hscan : scan 0 f (f.length - 65577) (min f.length 65577) 3
      (scanStart f.length) = .exhausted) :
    fixup f d = (.noaction, f) := by
  unfold fixup
  rw [if_neg hlen, hscan]

lemma fixup_of_alreadyOk (f : List Nat) (d : Bool) (c : Nat)
    (hlen : ¬ f.length < 22)
    (hscan : scan 0 f (f.length - 65577) (min f.length 65577) 3
      (scanStart f.length) = .alreadyOk c) :
    fixup f d = (.noaction, f) := by
  unfold fixup
  rw [if_neg hlen, hscan]

/-- A `fixup` call that returned a file different from its input must
have reached the patch step with the dry-run flag clear, and the output
is the input with the single byte at `c - 4` set to 1. -/
lemma fixup_changed_inv (f : List Nat) (d : Bool) (r : FixupRes) (g : List Nat)
    (h : fixup f d = (r, g)) (hne : g ≠ f) :
    ∃ c, ¬ f.length < 22 ∧
      scan 0 f (f.length - 65577) (min f.length 65577) 3
        (scanStart f.length) = .patchable c ∧
      d = false ∧ r = .updated ∧ g = f.set (c - 4) 1 := by
  unfold fixup at h
  by_cases hlen : f.length < 22
  · rw [if_pos hlen] at h
    cases h
    exact absurd rfl hne
  · rw [if_neg hlen] at h
    cases hscan : scan 0 f (f.length - 65577) (min f.length 65577) 3
        (scanStart f.length) with
    | exhausted => rw [hscan] at h; cases h; exact absurd rfl hne
    | notStartDisk c => rw [hscan] at h; cases h; exact absurd rfl hne
    | notZip64 c => rw [hscan] at h; cases h; exact absurd rfl hne
    | alreadyOk c => rw [hscan] at h; cases h; exact absurd rfl hne
    | patchable c =>
        rw [hscan] at h
        cases d
        · simp only [Bool.false_eq_true, if_false] at h
          cases h
          exact ⟨c, hlen, rfl, rfl, rfl, rfl⟩
        · simp only [if_true] at h
          cases h
          exact absurd rfl hne

/-- The scan result does not depend on the value of the out-of-bounds
byte `sig[4]`: from any state reachable from `fixup`'s entry state
(`i ≤ 4`), both branches of the `i = 4` comparison lead to the same
continuation (`i` becomes 3 and the pointer moves down). -/
lemma scan_junk_irrelevant (j j' : Nat) (f : List Nat) (lo fsC : Nat) :
    ∀ p i, i ≤ 4 → scan j f lo fsC i p = scan j' f lo fsC i p := by
  intro p
  induction p with
  | zero => intro i _; rfl
  | succ q ih =>
    intro i hi4
    rw [scan]
    conv_rhs => rw [scan]
    by_cases hg : q + 1 < lo + 20
    · rw [if_pos hg, if_pos hg]
    · rw [if_neg hg, if_neg hg]
      rcases Nat.lt_or_ge i 4 with h4 | h4
      · have hsig : sigByte j i = sigByte j' i := by
          interval_cases i <;> rfl
        rw [hsig]
        by_cases hs : f.getD (q + 1) 0 = sigByte j' i
        · rw [if_pos hs, if_pos hs]
          by_cases hi0 : i = 0
          · rw [if_pos hi0, if_pos hi0]
            by_cases hcc : (q + 1) - lo + 22 + read2 f ((q + 1) + 20) ≠ fsC
            · rw [if_pos hcc, if_pos hcc]
              exact ih 4 (le_refl 4)
            · rw [if_neg hcc, if_neg hcc]
              by_cases hd : read2 f ((q + 1) + 4) ≠ read2 f ((q + 1) + 6)
              · rw [if_pos hd, if_pos hd]
              · rw [if_neg hd, if_neg hd]
                by_cases hcd : read4 f ((q + 1) + 16) ≠ 0xffffffff
                · rw [if_pos hcd, if_pos hcd]
                · rw [if_neg hcd, if_neg hcd]
                  by_cases hz : read4 f ((q + 1) - 20) ≠ 0x07064b50
                  · rw [if_pos hz, if_pos hz]
                    exact ih 4 (le_refl 4)
                  · rw [if_neg hz, if_neg hz]
          · rw [if_neg hi0, if_neg hi0]
            exact ih (i - 1) (by omega)
        · rw [if_neg hs, if_neg hs]
          exact ih 3 (by omega)
      · have hi4e : i = 4 := by omega
        subst hi4e
        have hL : ∀ jx : Nat,
            (if f.getD (q + 1) 0 = sigByte jx 4 then
              if (4 : Nat) = 0 then
                if (q + 1) - lo + 22 + read2 f ((q + 1) + 20) ≠ fsC then
                  scan jx f lo fsC 4 q
                else if read2 f ((q + 1) + 4) ≠ read2 f ((q + 1) + 6) then
                  ScanResult.notStartDisk (q + 1)
                else if read4 f ((q + 1) + 16) ≠ 0xffffffff then
                  ScanResult.notZip64 (q + 1)
                else if read4 f ((q + 1) - 20) ≠ 0x07064b50 then
                  scan jx f lo fsC 4 q
                else if read4 f ((q + 1) - 4) = 0 then
                  ScanResult.patchable (q + 1)
                else
                  ScanResult.alreadyOk (q + 1)
              else scan jx f lo fsC (4 - 1) q
            else scan jx f lo fsC 3 q) = scan jx f lo fsC 3 q := by
          intro jx
          by_cases hs : f.getD (q + 1) 0 = sigByte jx 4
          · rw [if_pos hs, if_neg (by omega : ¬ (4 : Nat) = 0)]
          · rw [if_neg hs]
        rw [hL j, hL j']
        exact ih 3 (by omega)

/-! ### Claim theorems -/

/-- C1: for every non-dry-run fixup call whose scan reaches the patch
step (a validated EOCDR candidate at `c` with this_disk == start_disk,
central-directory offset 0xffffffff, the Zip64 EOCDL signature 20 bytes
before the candidate, and the 4-byte total-disks field at `c - 4`
reading 0), the call returns Updated, the 4-byte total-disks field
afterwards reads 1, and every byte of the file other than the single
written byte at `c - 4` (in particular every byte outside the 4-byte
field) is unchanged. -/
theorem c1_patch_updates_only_disk_field (f : List Nat) (c : Nat)
    (hb : ∀ b ∈ f, b < 256) (hlen : ¬ f.length < 22)
    (hscan : scan 0 f (f.length - 65577) (min f.length 65577) 3
      (scanStart f.length) = .patchable c) :
    fixup f false = (.updated, f.set (c - 4) 1) ∧
    read4 (f.set (c - 4) 1) (c - 4) = 1 ∧
    ∀ j, j ≠ c - 4 → (f.set (c - 4) 1).getD j 0 = f.getD j 0 := by
  obtain ⟨hc20, hcq, -, -, -, -, hn⟩ := scan_patch_facts 0 f _ _ _ _ _ hscan
  have hsl : scanStart f.length < f.length := by
    unfold scanStart at *
    omega
  have hw : c - 4 < f.length := by omega
  refine ⟨?_, ?_, ?_⟩
  · have h := fixup_of_patchable f false c hlen hscan
    simpa using h
  · have hz0 := read4_zero_bytes f hb hn
    unfold read4
    rw [getD_set_self f hw,
      getD_set_ne f (show c - 4 ≠ (c - 4) + 1 by omega) 1,
      getD_set_ne f (show c - 4 ≠ (c - 4) + 2 by omega) 1,
      getD_set_ne f (show c - 4 ≠ (c - 4) + 3 by omega) 1,
      hz0.2.1, hz0.2.2.1, hz0.2.2.2]
    rfl
  · intro j hj
    exact getD_set_ne f (Ne.symm hj) 1

/-- Witness for C1 at the concrete archive `wfile` (patch step reached at
candidate offset 20, total-disks field at offset 16). -/
theorem c1_witness :
    fixup wfile false = (.updated, wfile.set 16 1) ∧
    read4 (wfile.set 16 1) 16 = 1 ∧
    (wfile.set 16 1).getD 0 0 = wfile.getD 0 0 := by
  have h := c1_patch_updates_only_disk_field wfile 20 (by decide) (by decide) (by decide)
  exact ⟨h.1, h.2.1, h.2.2 0 (by decide)⟩

/-- C2: a fixup call changes a byte of the file only if, at the validated
candidate offset `c` (comment-length cross check against the file size),
this_disk equals start_disk, the central-directory offset reads
0xffffffff, the Zip64 EOCDL signature sits 20 bytes before `c`, and the
4-byte total-disks field at `c - 4` reads 0. -/
theorem c2_write_implies_validated (f : List Nat) (d : Bool) (r : FixupRes)
    (g : List Nat) (h : fixup f d = (r, g)) (hne : g ≠ f) :
    ∃ c, 20 ≤ c ∧ c + 22 + read2 f (c + 20) = f.length ∧
      read2 f (c + 4) = read2 f (c + 6) ∧
      read4 f (c + 16) = 0xffffffff ∧
      read4 f (c - 20) = 0x07064b50 ∧
      read4 f (c - 4) = 0 := by
  obtain ⟨c, hlen, hscan, -, -, -⟩ := fixup_changed_inv f d r g h hne
  obtain ⟨hc20, hcq, hcross, hdisks, hcd, hz, hn⟩ :=
    scan_patch_facts 0 f _ _ _ _ _ hscan
  exact ⟨c, by omega, by omega, hdisks, hcd, hz, hn⟩

/-- Witness for C2: the non-dry-run call on `wfile` changes the file, and
the patch conditions hold at the validated candidate. -/
theorem c2_witness :
    ∃ c, 20 ≤ c ∧ c + 22 + read2 wfile (c + 20) = wfile.length ∧
      read2 wfile (c + 4) = read2 wfile (c + 6) ∧
      read4 wfile (c + 16) = 0xffffffff ∧
      read4 wfile (c - 20) = 0x07064b50 ∧
      read4 wfile (c - 4) = 0 :=
  c2_write_implies_validated wfile false .updated (wfile.set 16 1)
    (by decide) (by decide)

/-- C3 counterexample: the 22-byte all-zero file stats, opens and maps
successfully in the model, its scan exhausts the whole range with no
candidate, and `fixup` returns 0 (NoActionNeeded) — not the -1 error
return ("not a zip file") the claim asserts. -/
theorem c3_counterexample :
    scan 0 (List.replicate 22 0) 0 22 3 (scanStart 22) = .exhausted ∧
    fixup (List.replicate 22 0) false = (.noaction, List.replicate 22 0) ∧
    FixupRes.noaction ≠ FixupRes.err := by
  decide

/-- C3 amended: for every file of size at least 22 whose backward scan
exhausts its whole range without accepting a candidate, fixup returns 0
(NoActionNeeded, `res` keeps its initial value) and leaves the file
unchanged; it does not return Failed(NotAZip). -/
theorem c3_amended_exhausted_noaction (f : List Nat) (d : Bool)
    (hlen : ¬ f.length < 22)
    (hscan : scan 0 f (f.length - 65577) (min f.length 65577) 3
      (scanStart f.length) = .exhausted) :
    fixup f d = (.noaction, f) :=
  fixup_of_exhausted f d hlen hscan

/-- Witness for the amended C3 at the 22-byte all-zero file. -/
theorem c3_amended_witness :
    fixup (List.replicate 22 0) true = (.noaction, List.replicate 22 0) :=
  c3_amended_exhausted_noaction (List.replicate 22 0) true (by decide) (by decide)

/-- C4: (1) whenever the locator accepts a signature occurrence at file
offset `c` as the EOCDR, `c + 22 + comment_len = file_size` holds, for
every file (any size, the window parameters being `fixup`'s); (2) a full
signature match at a position failing that equation is rejected as a
false positive and the scan continues at the next position with the
partial-match state reset (it does not stop), for arbitrary window
parameters `lo`/`fsC`, i.e. for every file size including the
page-rounded large-file case. -/
theorem c4_crosscheck :
    (∀ (f : List Nat) (i p c : Nat), acceptedAt f i p c →
        c + 22 + read2 f (c + 20) = f.length) ∧
    (∀ (f : List Nat) (lo fsC q : Nat), ¬ q + 1 < lo + 20 →
        f.getD (q + 1) 0 = sigByte 0 0 →
        (q + 1) - lo + 22 + read2 f ((q + 1) + 20) ≠ fsC →
        scan 0 f lo fsC 0 (q + 1) = scan 0 f lo fsC 4 q) := by
  constructor
  · intro f i p c hacc
    have hcand : (scan 0 f (f.length - 65577) (min f.length 65577) i p).cand
        = some c := by
      rcases hacc with h | h | h | h <;> rw [h] <;> rfl
    obtain ⟨hc20, hcp, hcross⟩ := scan_cand_base 0 f _ _ p i c hcand
    omega
  · intro f lo fsC q hg hs hcc
    rw [scan, if_neg hg, if_pos hs, if_pos rfl, if_pos hcc]

/-- Witness for C4: the accepted candidate of `wfile` satisfies the
cross-check equation, and the failing candidate of `file46` (offset 24,
comment length 1, 24 + 22 + 1 ≠ 46) is rejected with the scan continuing. -/
theorem c4_witness :
    20 + 22 + read2 wfile (20 + 20) = wfile.length ∧
    scan 0 file46 0 46 0 24 = scan 0 file46 0 46 4 23 := by
  constructor
  · exact c4_crosscheck.1 wfile 3 (scanStart wfile.length) 20 (by decide)
  · exact c4_crosscheck.2 file46 0 46 23 (by decide) (by decide) (by decide)

/-- C5: the byte readers are little-endian only in one of the two
endianness modes.  With the mode flag false (the big-endian-host branch)
`get2bytes` on the bytes [1, 0] returns 0x0100 instead of the
little-endian value 1, and `get4bytes` on [1, 0, 0, 0] returns
0x01000000 instead of 1 — the code's big-endian branches compute the
byte-swapped (big-endian) interpretation, contradicting the claim (and
the functions' own comments) that the result is the little-endian value
regardless of the mode. -/
theorem c5_bigendian_branch_wrong :
    get2bytes false 1 0 = 256 ∧ get2bytes false 1 0 ≠ 1 + 256 * 0 ∧
    get4bytes false 1 0 0 0 = 16777216 ∧
    get4bytes false 1 0 0 0 ≠ 1 + 256 * 0 + 65536 * 0 + 16777216 * 0 := by
  decide

/-- C6 counterexample: `cfile` carries a fully validated signature
occurrence at offset 40 (it satisfies the cross check — and in fact all
patch conditions), nearest the end of the file, yet the locator never
accepts it and `fixup` returns 0 leaving the file unchanged: the 0x06
byte at offset 44 is consumed as the final byte of an overlapping
candidate, and the mismatch at offset 43 advances past that byte without
reconsidering it. -/
theorem c6_counterexample :
    sigAt cfile 40 ∧ 40 + 22 + read2 cfile (40 + 20) = cfile.length ∧
    ¬ acceptedAt cfile 3 (scanStart cfile.length) 40 ∧
    fixup cfile false = (.noaction, cfile) := by
  decide

/-- C6 amended: on a byte mismatch the scanner resets to expecting the
final signature byte and moves on to the previous byte; the mismatching
byte itself is not reconsidered (so a validated occurrence overlapping a
failed partial match can be missed, as `c6_counterexample` shows): the
scan from a mismatching state equals the scan from the next position
with partial-match index 3. -/
theorem c6_amended_mismatch_skips_byte (f : List Nat) (lo fsC i q : Nat)
    (hg : ¬ q + 1 < lo + 20) (hm : f.getD (q + 1) 0 ≠ sigByte 0 i) :
    scan 0 f lo fsC i (q + 1) = scan 0 f lo fsC 3 q := by
  rw [scan, if_neg hg, if_neg hm]

/-- Witness for the amended C6: the mismatch of `cfile` at offset 43
(0x06 where 0x05 was expected) resets the scanner and moves to offset 42. -/
theorem c6_amended_witness :
    scan 0 cfile 0 63 2 43 = scan 0 cfile 0 63 3 42 :=
  c6_amended_mismatch_skips_byte cfile 0 63 2 42 (by decide) (by decide)

/-- C7: at file size 65597 with page size 4096 the window is
[0, 65577) (`offsize` 0, `pageoff` 20, mapped length `min 65597 65577 =
65577`), but the scan's starting byte sits at file offset
65597 - 19 = 65578, outside the mapped window — refuting the claim that
every byte the locator touches lies within
[aligned_offset, aligned_offset + window_size). -/
theorem c7_scan_start_outside_window :
    winSize 65597 = 65577 ∧ winPageoff 65597 4096 = 20 ∧
    winStart 65597 4096 = 0 ∧ scanStart 65597 = 65578 ∧
    ¬ scanStart 65597 < winStart 65597 4096 + winSize 65597 := by
  decide

/-- C8: fixup is idempotent — if a non-dry-run call returns Updated with
resulting file `g`, an immediately following non-dry-run call on `g`
returns NoActionNeeded and leaves `g` unchanged. -/
theorem c8_idempotent (f g : List Nat) (hb : ∀ b ∈ f, b < 256)
    (h : fixup f false = (.updated, g)) :
    fixup g false = (.noaction, g) := by
  unfold fixup at h
  by_cases hlen : f.length < 22
  · rw [if_pos hlen] at h
    injection h with h1 h2
    exact FixupRes.noConfusion h1
  · rw [if_neg hlen] at h
    cases hscan : scan 0 f (f.length - 65577) (min f.length 65577) 3
        (scanStart f.length) with
    | exhausted =>
        rw [hscan] at h; injection h with h1 h2; exact FixupRes.noConfusion h1
    | notStartDisk c =>
        rw [hscan] at h; injection h with h1 h2; exact FixupRes.noConfusion h1
    | notZip64 c =>
        rw [hscan] at h; injection h with h1 h2; exact FixupRes.noConfusion h1
    | alreadyOk c =>
        rw [hscan] at h; injection h with h1 h2; exact FixupRes.noConfusion h1
    | patchable c =>
        rw [hscan] at h
        simp only [Bool.false_eq_true, if_false] at h
        injection h with h1 h2
        subst h2
        have hsl : scanStart f.length < f.length := by
          unfold scanStart
          omega
        have hscan2 := scan_after_patch f hb (f.length - 65577)
          (min f.length 65577) (scanStart f.length) 3 c hsl
          (matchInv_triv f 3 (scanStart f.length) le_rfl) hscan
        apply fixup_of_alreadyOk (f.set (c - 4) 1) false c
        · simp only [List.length_set]
          exact hlen
        · simp only [List.length_set]
          exact hscan2

/-- Witness for C8 at the concrete archive `wfile`. -/
theorem c8_witness :
    fixup (wfile.set 16 1) false = (.noaction, wfile.set 16 1) :=
  c8_idempotent wfile (wfile.set 16 1) (by decide) (by decide)

/-- C9: a dry-run fixup call on an archive whose validated candidate
satisfies all patch conditions (the scan reaches the patch step) reports
Updated while leaving the file byte-for-byte identical. -/
theorem c9_dryrun_no_write (f : List Nat) (c : Nat) (hlen : ¬ f.length < 22)
    (hscan : scan 0 f (f.length - 65577) (min f.length 65577) 3
      (scanStart f.length) = .patchable c) :
    fixup f true = (.updated, f) := by
  have h := fixup_of_patchable f true c hlen hscan
  simpa using h

/-- Witness for C9 at the concrete archive `wfile`. -/
theorem c9_witness : fixup wfile true = (.updated, wfile) :=
  c9_dryrun_no_write wfile 20 (by decide) (by decide)

/-- C10: on `file46` (whose only signature occurrence fails the
comment-length cross check) the scan run started from `fixup`'s entry
state executes an iteration whose signature-array subscript is
`i = SIG_LEN = 4`, outside {0,1,2,3}: the instrumented scan reports the
out-of-range subscript. -/
theorem c10_sig_index_escapes :
    scanSigIdxOk file46 (file46.length - 65577) (min file46.length 65577) 3
      (scanStart file46.length) = false := by
  decide
